import Mathlib

/-!
Verification development for the eventsource command store.

The source under scrutiny is a schema-configurable append-only event store:
`handle` registers a path with an index/validation schema, `add` validates and
persists a record, `query` compiles a filter into a storage predicate
(`buildQuery`), applies a position/limit window and streams results, and the
HTTP layer (`pushQueryStreamStart`) emits a HATEOAS link envelope.

The embedding below translates those functions into Lean.  JavaScript runtime
values are modelled by `JSVal` (numbers as rationals, since JS has a single
number type); JS objects are ordered association lists over `String`.  The
storage engine itself is an external collaborator: its behaviour is
parameterised (`StorageEnv`, and the list of matching records handed to
`query`), while every decision made by the source code itself is embedded
directly.
-/

namespace EventSource

/-- JavaScript runtime values.  Numbers are modelled as rationals (JS has a
single number type covering integers and decimal fractions). -/
inductive JSVal where
  | vBool (b : Bool)
  | vNum (n : Rat)
  | vStr (s : String)
  | vNull
  | vUndefined
  | vObj (fields : List (String × JSVal))

/-- A JavaScript object: an ordered association list of properties. -/
abbrev JSObj : Type := List (String × JSVal)

/-- The result of the JS `typeof` operator on a modelled value. -/
def jsTypeof : JSVal → String
  | .vBool _ => "boolean"
  | .vNum _ => "number"
  | .vStr _ => "string"
  | .vNull => "object"
  | .vUndefined => "undefined"
  | .vObj _ => "object"

/-- `o.hasOwnProperty k` on an association-list object. -/
def aHas {α : Type} (o : List (String × α)) (k : String) : Bool :=
  o.any (fun p => p.1 == k)

/-- First binding of key `k`, if any (JS objects carry unique keys, so the
first binding is the binding). -/
def aGet? {α : Type} (o : List (String × α)) (k : String) : Option α :=
  match o with
  | [] => none
  | p :: t => if p.1 == k then some p.2 else aGet? t k

/-- JS property assignment `o[k] = v`: overwrite in place (keeping the key
position) when the key exists, append otherwise. -/
def aSet {α : Type} (o : List (String × α)) (k : String) (v : α) : List (String × α) :=
  if aHas o k then o.map (fun p => if p.1 == k then (k, v) else p) else o ++ [(k, v)]

/-- Remove every binding of key `k`. -/
def aErase {α : Type} (o : List (String × α)) (k : String) : List (String × α) :=
  o.filter (fun p => p.1 != k)

/-- JS property read `o[k]`, yielding `undefined` for a missing key. -/
def jsGet (o : JSObj) (k : String) : JSVal :=
  (aGet? o k).getD .vUndefined

/-- One field rule of a registered index configuration (source doc block of
`handle`): optional default value, required flag, expected `typeof` string,
validator hook and value-derivation hook.  The hooks are typed function
values; the registration-time checks that they are functions are therefore
vacuous in the model. -/
structure FieldRule where
  defaultValue : JSVal := .vUndefined
  required : Bool := false
  type : Option String := none
  validator : Option (JSVal → Bool) := none
  value : Option (JSVal → JSVal) := none

/-- The per-path entry of the global `store`: the index configuration, the
key list captured by `Object.keys(indexes)` at registration time (hence in
registration order), and the optional whole-record transform. -/
structure Handler where
  indexes : List (String × FieldRule)
  keys : List String
  transform : Option (JSObj → JSObj)

/-- The global `store`: a map from path to handler. -/
abbrev Store : Type := List (String × Handler)

/-- Errors thrown synchronously by the source. -/
inductive JSError where
  | typeError (msg : String)
  | error (msg : String)

/-- Look a key up in an index configuration; total, with an all-default rule
as the (unreachable for keys taken from the configuration) fallback. -/
def getRule (idx : List (String × FieldRule)) (k : String) : FieldRule :=
  (aGet? idx k).getD {}

/-- Embeds `exports.handle` (source lines 134-178).  Line 135 evaluates
`Object.keys(indexes)` before line 136 assigns the one-argument default
`indexes = \x7b\x7d`, so a call that omits `indexes` throws `TypeError`
(`Object.keys(undefined)`); the line-136 reassignment is consequently dead
code and is elided here.  The configuration loop throws on the first key
whose declared `type` is truthy yet not one of boolean/number/string.  The
collection/createIndex side effects concern the external storage engine and
are not part of the returned handler. -/
def handle (path : String) (indexes : Option (List (String × FieldRule)))
    (transform : Option (JSObj → JSObj)) : Except JSError Handler :=
  match indexes with
  | none => .error (.typeError "Cannot convert undefined or null to object")
  | some idx =>
    let keys := idx.map Prod.fst
    match keys.findSome? (fun k =>
      let item := getRule idx k
      match item.type with
      | some t =>
        if t != "" && t != "string" && t != "number" && t != "boolean" then
          some ("Invalid type specified for command handler for " ++ path ++ " " ++ k ++
            ". Expected on of \"boolean\", \"number\", or \"string\".")
        else none
      | none => none) with
    | some msg => .error (.error msg)
    | none => .ok ⟨idx, keys, transform⟩

/-- Embeds the per-key body of the validation loop of `exports.add` (source
lines 59-73): pick the value (or the default), then check required, type and
validator in that order, throwing `RequestError` with the messages of source
lines 64-66, and finally run the value-derivation hook. -/
def fieldCheck (r : FieldRule) (key : String) (data : JSObj) : Except String JSVal :=
  let value := if aHas data key then jsGet data key else r.defaultValue
  if r.required && !(aHas data key) then
    .error ("Missing required property: " ++ key ++ ".")
  else if (match r.type with
           | some t => t != "" && jsTypeof value != t
           | none => false) then
    .error ("Invalid type for property: " ++ key ++ ". Expected " ++ r.type.getD "")
  else if (match r.validator with
           | some f => !(f value)
           | none => false) then
    .error ("Validation failed for property: " ++ key ++ ".")
  else
    .ok (match r.value with | some f => f value | none => value)

/-- The validation loop of `exports.add`: walk the registration-order key
list, aborting with the first thrown error and otherwise accumulating the
normalized item. -/
def buildItemGo (idx : List (String × FieldRule)) (data : JSObj) :
    List String → JSObj → Except String JSObj
  | [], item => .ok item
  | key :: ks, item =>
    match fieldCheck (getRule idx key) key data with
    | .error e => .error e
    | .ok v => buildItemGo idx data ks (aSet item key v)

/-- The normalized item produced by the validation loop of `exports.add`
(source lines 58-73), before the reserved fields are stamped on. -/
def buildItem (h : Handler) (data : JSObj) : Except String JSObj :=
  buildItemGo h.indexes data h.keys []

/-- How a call to the external storage engine's `insertOne` behaves.  The
mongodb driver reports failure by rejecting the returned promise
(`rejects`); a synchronous throw (`throwsSync`) would instead be caught by
the surrounding try/catch. -/
inductive InsertBehavior where
  | succeeds
  | rejects
  | throwsSync

/-- Behaviour of the external storage engine during one `add` call. -/
structure StorageEnv where
  collectionOk : Bool := true
  insert : InsertBehavior := .succeeds

/-- A storage operation issued by the core. -/
inductive StorageOp where
  | insertOne (path : String) (item : JSObj)

/-- Result of `exports.add`: HTTP-ish status code, the string chunks pushed
to the response stream, and the storage operations issued. -/
structure AddResult where
  code : Int
  content : List String
  ops : List StorageOp

/-- The transform step of `exports.add` (source line 55). -/
def applyTransform (h : Handler) (data : JSObj) : JSObj :=
  match h.transform with
  | some f => f data
  | none => data

/-- Embeds `exports.add` (source lines 26-100).  Unregistered paths respond
404 before any storage access.  Validation failures are `RequestError`s and
are turned into a 500 response carrying the error message (source line 97).
The persisted item is the normalized item plus `__timestamp` (line 76) plus
`__data` holding the transformed input (line 79).  The promise chain of
lines 82-92 does NOT return the `insertOne` promise from its first `then`
callback, so an asynchronous `insertOne` rejection is never seen by the
`catch` handler: the chain resolves 200 regardless.  Only a rejection of the
collection promise itself, or a synchronous throw, reaches the 500 branch. -/
def add (store : Store) (path : String) (data : JSObj) (now : Rat) (env : StorageEnv) :
    AddResult :=
  match aGet? store path with
  | none => ⟨404, ["Not found"], []⟩
  | some h =>
    let data := applyTransform h data
    match buildItem h data with
    | .error msg => ⟨500, [msg], []⟩
    | .ok item0 =>
      let item := aSet (aSet item0 "__timestamp" (.vNum now)) "__data" (.vObj data)
      if !env.collectionOk then ⟨500, ["Internal server error"], []⟩
      else
        match env.insert with
        | .throwsSync => ⟨500, ["Internal server error"], [.insertOne path item]⟩
        | _ => ⟨200, [""], [.insertOne path item]⟩

/-- The `position` option as the source observes it: absent, present but
failing the `isNaN` guard, or numeric with `parseInt` result `n`
(source line 246 reads it only through `hasOwnProperty` plus `isNaN` plus
`parseInt`). -/
inductive PosOpt where
  | absent
  | nan
  | num (n : Int)

/-- A `startTime`/`endTime` option value as `parseTime` (source lines
505-511) observes it: a numeric value (`isNaN` false, `parseInt` result
`n`), a date string that `new Date` parses to epoch `e`, or an unparsable
value (invalid date). -/
inductive TimeInput where
  | num (n : Int)
  | dateStr (epoch : Int)
  | unparsable

/-- Embeds `parseTime` (source lines 505-511): numeric input is truncated
to an integer, a parsable date string becomes its epoch value, anything
else returns `null` (modelled as `none`). -/
def parseTime : TimeInput → Option Int
  | .num n => some n
  | .dateStr e => some e
  | .unparsable => none

/-- The options map of `exports.query`.  The source reads the keys
`position`, `startTime`, `endTime` and `timestamp` (line 257).  The key
`timestampProperty`, although it is the one documented in the source doc
block (line 201), is carried here as well precisely because the code never
reads it. -/
structure QueryOptions where
  position : PosOpt := .absent
  startTime : Option TimeInput := none
  endTime : Option TimeInput := none
  timestamp : Option String := none
  timestampProperty : Option String := none

/-- A value of the compiled storage predicate: either a plain coerced
filter value, or the `__timestamp` range object.  In a range, the outer
`Option` records whether the bound key is present at all and the inner
`Option` distinguishes `null` (from an unparsable bound) from a number. -/
inductive QVal where
  | plain (v : JSVal)
  | range (gte : Option (Option Int)) (lte : Option (Option Int))

/-- The compiled storage predicate handed to `collection.find`. -/
abbrev Predicate : Type := List (String × QVal)

/-- JS `Number(s)` on a plain decimal literal, as a rational.  This
approximates the source guard `!isNaN(value)` together with
`parseFloat`/`parseInt` (source lines 475-476); exotic JS numeric forms
(exponents, hex, surrounding whitespace, the empty string) are out of the
model, and no claim depends on them. -/
def jsNumber? (s : String) : Option Rat :=
  let core := fun (t : String) =>
    match t.splitOn "." with
    | [a] => (a.toNat?).map (fun n => (n : Rat))
    | [a, b] =>
      match a.toNat?, b.toNat? with
      | some na, some nb => some ((na : Rat) + (nb : Rat) / ((10 : Rat) ^ b.length))
      | _, _ => none
    | _ => none
  if s.startsWith "-" then (core (s.drop 1)).map (fun q => -q) else core s

/-- The source chooses `parseFloat` when the raw string contains a dot and
`parseInt` otherwise (line 476); on plain decimal literals both agree with
`Number`, so the model reuses `jsNumber?` for either branch. -/
def jsBoolCoerce (value : String) : Bool :=
  if value == "true" then true
  else if value == "false" then false
  else value != ""

/-- One iteration of the filter-compilation loop of `buildQuery` (source
lines 462-485): keys absent from the index configuration are ignored;
declared types coerce the raw string value (boolean words, numeric parse
that is dropped when unparsable, strings passed through — the `default`
switch arm behaves like the string arm). -/
def compileFilterStep (h : Handler) (acc : Predicate) (kv : String × String) : Predicate :=
  match aGet? h.indexes kv.1 with
  | none => acc
  | some rule =>
    if rule.type == some "boolean" then
      aSet acc kv.1 (.plain (.vBool (jsBoolCoerce kv.2)))
    else if rule.type == some "number" then
      match jsNumber? kv.2 with
      | some q => aSet acc kv.1 (.plain (.vNum q))
      | none => acc
    else
      aSet acc kv.1 (.plain (.vStr kv.2))

/-- The filter part of `buildQuery`. -/
def compileFilter (h : Handler) (filter : List (String × String)) : Predicate :=
  filter.foldl (compileFilterStep h) []

/-- Embeds `buildQuery` (source lines 456-498).  Note the source defect kept
faithfully: line 487 assigns the variable `startTime`, and line 488 assigns
THE SAME variable `startTime` from `options.endTime`, while the variable
`endTime` declared on line 457 is never assigned.  The outer `Option` is
JS definedness (`typeof x !== \x27undefined\x27` is modelled by `Option`;
note that the `null` returned by `parseTime` for an unparsable bound is a
defined value). -/
def buildQuery (h : Handler) (filter : List (String × String)) (options : QueryOptions) :
    Predicate :=
  let base := compileFilter h filter
  let startTimeV : Option (Option Int) :=
    match options.startTime with
    | some t => some (parseTime t)
    | none => none
  let startTimeV : Option (Option Int) :=
    match options.endTime with
    | some t => some (parseTime t)
    | none => startTimeV
  let endTimeV : Option (Option Int) := none
  match startTimeV, endTimeV with
  | some s, some e => aSet base "__timestamp" (.range (some s) (some e))
  | some s, none => aSet base "__timestamp" (.range (some s) none)
  | none, some e => aSet base "__timestamp" (.range none (some e))
  | none, none => base

/-- Modelled from the spec: `config.js` is not under `src/`; it supplies the
default page size (`defaultLimit`) and the cap (`maxLimit`) that the query
operations read from `globalConfig`. -/
structure Config where
  defaultLimit : Int
  maxLimit : Int

/-- Result of `exports.query`: status code, content type, the emitted value
sequence (strings for error bodies, objects for streamed records), and the
pagination metadata fields of the source result object. -/
structure QueryResult where
  code : Int
  contentType : String
  content : List JSVal
  limit : Int
  position : Option Int
  recordsCount : Int

/-- Source lines 257-260: the emission property name comes from the options
key `timestamp`; a truthy value is used as the property name, a falsy (empty
string) value falls back to the literal name `timestamp`. -/
def tsPropertyOf (options : QueryOptions) : Option String :=
  match options.timestamp with
  | none => none
  | some s => some (if s == "" then "timestamp" else s)

/-- Set a property on a JS value (no-op on non-objects). -/
def jsSetProp : JSVal → String → JSVal → JSVal
  | .vObj o, k, v => .vObj (aSet o k v)
  | x, _, _ => x

/-- The cursor stream transform of source lines 270-276: emit the stored
`__data` payload, annotated with the stored `__timestamp` under the chosen
property name when one was selected. -/
def emitRecord (tsProp : Option String) (item : JSObj) : JSVal :=
  let data := jsGet item "__data"
  match tsProp with
  | some p => jsSetProp data p (jsGet item "__timestamp")
  | none => data

/-- The effective skip position of source lines 245-247: `count - limit` by
default (the window anchors at the tail), overridden by a `position` option
that passes the `isNaN` guard. -/
def effStart (matching : List JSObj) (options : QueryOptions) (cfg : Config) : Int :=
  match options.position with
  | .num n => n
  | _ => (matching.length : Int) - cfg.defaultLimit

/-- Embeds the registered-path branch of `exports.query` (source lines
224-280) given the records matching the compiled predicate (the
`collection.find` result is produced by the external storage engine;
`cursor.count()` is their number).  The window logic: `limit` stays at the
configured default (this query variant never reads the `limit` option),
the skip position defaults to `count - limit` and is overridden by a
numeric `position` option; an out-of-bounds position short-circuits into
an empty 200 response; otherwise the cursor skips `position - 1` records
and streams the rest through `emitRecord`. -/
def queryCore (h : Handler) (matching : List JSObj) (options : QueryOptions)
    (cfg : Config) : QueryResult :=
  let count : Int := matching.length
  let start : Int := effStart matching options cfg
  if start < 1 ∨ start > count then
    ⟨200, "application/json", [], cfg.defaultLimit, some start, count⟩
  else
    let tsProp := tsPropertyOf options
    ⟨200, "application/json", (matching.drop (start - 1).toNat).map (emitRecord tsProp),
      cfg.defaultLimit, some start, count⟩

/-- Embeds `exports.query` (source lines 204-294): unregistered paths
respond 404 `Not found`; registered paths run the window/emission logic on
the records matching `buildQuery`. -/
def query (store : Store) (path : String) (matching : List JSObj)
    (options : QueryOptions) (cfg : Config) : QueryResult :=
  match aGet? store path with
  | none => ⟨404, "text/plain", [.vStr "Not found"], cfg.defaultLimit, none, 0⟩
  | some h => queryCore h matching options cfg

/-- Embeds `buildQueryString` (server.js lines 126-134):
`Object.assign(\x7b\x7d, query, config)` merged last-write-wins (existing
keys keep their position and take the override value, new keys are
appended), then serialized as `?k=v&k=v...`. -/
def jsAssign (a b : List (String × String)) : List (String × String) :=
  a.map (fun kv => (kv.1, (aGet? b kv.1).getD kv.2)) ++
    b.filter (fun kv => !(aHas a kv.1))

/-- The query-string serialization of `buildQueryString`. -/
def buildQueryString (query config : List (String × String)) : String :=
  let data := jsAssign query config
  "?" ++ String.intercalate "&" (data.map (fun kv => kv.1 ++ "=" ++ kv.2))

/-- The chunks pushed for the `latest` link plus the envelope opening
(server.js lines 143-152); the `latest` href is the bare collection URL. -/
def latestChunksPart (serviceUrl : String) : List String :=
  ["\x7b", "\"links\":\x7b",
   "\"latest\":\x7b",
   "\"href\":\"" ++ serviceUrl ++ "\",",
   "\"method\":\"GET\",",
   "\"rel\":\"latest\"",
   "\x7d,"]

/-- The chunks pushed for the `next` link (server.js lines 155-162), with
the `~position` query override already instantiated. -/
def nextLinkChunks (url : String) (query : List (String × String)) (pos : Int) : List String :=
  ["\"next\":\x7b",
   "\"href\":\"" ++ url ++ buildQueryString query [("~position", toString pos)] ++ "\",",
   "\"method\":\"GET\",",
   "\"rel\":\"next\"",
   "\x7d,"]

/-- The `~position`/`~limit` override object built for the `prev` link
(server.js lines 166-170): `position - limit`, clamped to 1 with the limit
adjusted down to `position - 1` when the subtraction falls below 1. -/
def prevOverride (position limit : Int) : List (String × String) :=
  if position - limit < 1 then
    [("~position", toString (1 : Int)), ("~limit", toString (position - 1))]
  else
    [("~position", toString (position - limit))]

/-- The position value carried by the `prev` override. -/
def prevPosNum (position limit : Int) : Int :=
  if position - limit < 1 then 1 else position - limit

/-- The chunks pushed for the `prev` link (server.js lines 165-176). -/
def prevLinkChunks (url : String) (query : List (String × String))
    (position limit : Int) : List String :=
  ["\"prev\":\x7b",
   "\"href\":\"" ++ url ++ buildQueryString query (prevOverride position limit) ++ "\",",
   "\"method\":\"GET\",",
   "\"rel\":\"prev\"",
   "\x7d,"]

/-- The `self` link, envelope metadata and values-opening chunks
(server.js lines 179-193). -/
def selfAndMetaChunks (url : String) (query : List (String × String))
    (position limit recordsCount : Int) : List String :=
  ["\"self\":\x7b",
   "\"href\":\"" ++ url ++ buildQueryString query [("~position", toString position)] ++ "\",",
   "\"method\":\"GET\",",
   "\"rel\":\"self\"",
   "\x7d",
   "\x7d,",
   "\"metadata\":\x7b",
   "\"page_size\":" ++ toString limit ++ ",",
   "\"position\":" ++ toString position ++ ",",
   "\"total_records\":" ++ toString recordsCount,
   "\x7d,",
   "\"values\":["]

/-- Embeds `pushQueryStreamStart` (server.js lines 136-194): the sequence of
string chunks pushed to the response stream for a successful query, taking
the `position`, `limit` and `recordsCount` fields of the query result.  The
`next` link is pushed exactly when `recordsCount > position + limit`, the
`prev` link exactly when `position > 1`; `latest`, `self` and the metadata
object are always pushed. -/
def pushQueryStreamStart (serviceUrl : String) (query : List (String × String))
    (position limit recordsCount : Int) : List String :=
  let url := serviceUrl ++ "/"
  latestChunksPart serviceUrl ++
    (if recordsCount > position + limit then nextLinkChunks url query (position + limit) else []) ++
    (if position > 1 then prevLinkChunks url query position limit else []) ++
    selfAndMetaChunks url query position limit recordsCount

/-! ### Association-list lemmas -/

theorem aGet?_map_update {α : Type} (k : String) (v : α) (o : List (String × α)) :
    aGet? (o.map (fun p => if p.1 == k then (k, v) else p)) k =
      (aGet? o k).map (fun _ => v) := by
  induction o with
  | nil => rfl
  | cons p t ih =>
    simp only [List.map_cons]
    by_cases hp : p.1 == k
    · simp [aGet?, hp]
    · rw [if_neg hp]
      simp only [aGet?]
      rw [if_neg hp, if_neg hp]
      exact ih

theorem aHas_eq_isSome {α : Type} (o : List (String × α)) (k : String) :
    aHas o k = (aGet? o k).isSome := by
  induction o with
  | nil => rfl
  | cons p t ih =>
    by_cases hp : p.1 == k
    · simp [aHas, aGet?, hp]
    · simp [aHas, aGet?, hp] at ih ⊢
      exact ih

theorem aGet?_append_of_not_has {α : Type} (o l : List (String × α)) (k : String)
    (h : aHas o k = false) : aGet? (o ++ l) k = aGet? l k := by
  induction o with
  | nil => rfl
  | cons p t ih =>
    simp only [aHas, List.any_cons, Bool.or_eq_false_iff] at h
    simp only [List.cons_append, aGet?]
    rw [if_neg (by simp [h.1])]
    exact ih (by simp [aHas, h.2])

theorem aGet?_aSet {α : Type} (o : List (String × α)) (k : String) (v : α) :
    aGet? (aSet o k v) k = some v := by
  unfold aSet
  by_cases h : aHas o k
  · rw [if_pos h, aGet?_map_update]
    rw [aHas_eq_isSome] at h
    cases hg : aGet? o k with
    | none => rw [hg] at h; simp at h
    | some w => simp
  · rw [if_neg h, aGet?_append_of_not_has o _ k (by simpa using h)]
    simp [aGet?]

theorem aHas_aErase {α : Type} (o : List (String × α)) (k : String) :
    aHas (aErase o k) k = false := by
  induction o with
  | nil => rfl
  | cons p t ih =>
    unfold aErase at ih ⊢
    rw [List.filter_cons]
    by_cases hp : p.1 == k
    · rw [if_neg (by simp [bne, hp])]
      exact ih
    · rw [if_pos (by simp [bne, hp])]
      simp only [aHas, List.any_cons, Bool.or_eq_false_iff]
      refine ⟨by simpa using hp, ?_⟩
      exact ih

theorem aHas_eq_false_iff {α : Type} (o : List (String × α)) (k : String) :
    aHas o k = false ↔ k ∉ o.map Prod.fst := by
  induction o with
  | nil => simp [aHas]
  | cons p t ih =>
    simp only [aHas, List.any_cons, Bool.or_eq_false_iff, List.map_cons, List.mem_cons] at ih ⊢
    constructor
    · rintro ⟨h1, h2⟩ (he | hm)
      · rw [he] at h1; simp at h1
      · exact (ih.mp h2) hm
    · intro h
      refine ⟨?_, ih.mpr (fun hm => h (Or.inr hm))⟩
      by_cases he : p.1 == k
      · exact absurd (Or.inl (eq_of_beq he).symm) h
      · simpa using he

theorem aSet_map_fst_of_not_has {α : Type} (o : List (String × α)) (k : String) (v : α)
    (h : aHas o k = false) : (aSet o k v).map Prod.fst = o.map Prod.fst ++ [k] := by
  unfold aSet
  rw [if_neg (by simp [h])]
  simp

/-! ### The validation loop computes the first failing field -/

/-- The error that field `key` alone would raise on `data` (none when the
field passes). -/
def fieldError (r : FieldRule) (key : String) (data : JSObj) : Option String :=
  match fieldCheck r key data with
  | .error e => some e
  | .ok _ => none

/-- The normalized value of a passing field: the raw (or default) value run
through the value-derivation hook. -/
def okValue (r : FieldRule) (key : String) (data : JSObj) : JSVal :=
  let value := if aHas data key then jsGet data key else r.defaultValue
  match r.value with
  | some f => f value
  | none => value

/-- The first failing field of the registration-order key walk, with its
error message. -/
def firstFieldError (h : Handler) (data : JSObj) : Option String :=
  h.keys.findSome? (fun k => fieldError (getRule h.indexes k) k data)

/-- The fully normalized item: every declared key, in registration order,
bound to its normalized value. -/
def normalizedItem (h : Handler) (data : JSObj) : JSObj :=
  h.keys.foldl (fun a k => aSet a k (okValue (getRule h.indexes k) k data)) []

theorem fieldCheck_ok_val (r : FieldRule) (key : String) (data : JSObj) (v : JSVal)
    (h : fieldCheck r key data = .ok v) : v = okValue r key data := by
  simp only [fieldCheck] at h
  simp only [okValue]
  split_ifs at h <;> simp_all

theorem buildItemGo_spec (idx : List (String × FieldRule)) (data : JSObj)
    (ks : List String) :
    ∀ (acc : JSObj),
      buildItemGo idx data ks acc =
        match ks.findSome? (fun k => fieldError (getRule idx k) k data) with
        | some e => Except.error e
        | none =>
          Except.ok (ks.foldl (fun a k => aSet a k (okValue (getRule idx k) k data)) acc) := by
  induction ks with
  | nil => intro acc; rfl
  | cons k t ih =>
    intro acc
    unfold buildItemGo
    cases hc : fieldCheck (getRule idx k) k data with
    | error e =>
      simp [List.findSome?_cons, fieldError, hc]
    | ok v =>
      have hv : v = okValue (getRule idx k) k data := fieldCheck_ok_val _ _ _ _ hc
      simp [List.findSome?_cons, fieldError, hc, ih, hv]

/-! ### Fixtures: the `v1/logs` registration performed by the startup file -/

/-- The index configuration that the startup file registers for `v1/logs`:
a required string field `type` restricted to info/warn/error. -/
def logsIndexes : List (String × FieldRule) :=
  [("type",
    { required := true,
      type := some "string",
      validator := some (fun v =>
        match v with
        | .vStr s => s == "info" || s == "warn" || s == "error"
        | _ => false) })]

/-- The handler stored for `v1/logs` (keys are `Object.keys` of the
configuration). -/
def logsHandler : Handler := ⟨logsIndexes, logsIndexes.map Prod.fst, none⟩

/-- Sanity: registering the `v1/logs` configuration succeeds and stores
exactly `logsHandler`. -/
theorem handle_logs_ok : handle "v1/logs" (some logsIndexes) none = .ok logsHandler := rfl

/-- A store holding only the `v1/logs` registration. -/
def store1 : Store := [("v1/logs", logsHandler)]

/-- The declared field names of an item persisted by a storage operation. -/
def opItemKeys : StorageOp → List String
  | .insertOne _ item => item.map Prod.fst

/-- A sample stored payload. -/
def logPayload1 : JSObj := [("type", JSVal.vStr "info"), ("message", JSVal.vStr "hello")]

/-- A sample persisted `v1/logs` record: indexed field, write timestamp and
stored payload. -/
def logItem1 : JSObj :=
  [("type", JSVal.vStr "info"), ("__timestamp", JSVal.vNum 111),
   ("__data", JSVal.vObj logPayload1)]

/-! ### Claim theorems: registration and append -/

/-- C10: calling `handle` with a single argument (no index configuration)
always throws a `TypeError`: `Object.keys(indexes)` on source line 135 runs
before the one-argument default `indexes = \x7b\x7d` of line 136 is
assigned, so registering a path without an index configuration never
succeeds even though the parameter is documented as optional. -/
theorem handle_single_argument_type_error :
    ∀ (path : String),
      handle path none none =
        Except.error (.typeError "Cannot convert undefined or null to object") := by
  intro path
  rfl

/-- C1: the validation loop of `add` examines the declared index fields in
registration order and fails with exactly the error of the first failing
field (`buildItem` equals the first hit of the per-field check over the
registration-order key list), and a field whose rule is required and that
is absent from the input fails with the error naming that field
(`Missing required property`). -/
theorem add_validation_first_failing_field :
    (∀ (h : Handler) (data : JSObj),
        buildItem h data =
          match firstFieldError h data with
          | some e => Except.error e
          | none => Except.ok (normalizedItem h data)) ∧
    (∀ (r : FieldRule) (key : String) (data : JSObj),
        fieldCheck { r with required := true } key (aErase data key) =
          Except.error ("Missing required property: " ++ key ++ ".")) := by
  constructor
  · intro h data
    exact buildItemGo_spec h.indexes data h.keys []
  · intro r key data
    have hh : aHas (aErase data key) key = false := aHas_aErase data key
    simp only [fieldCheck, hh]
    rfl

/-- C2: `add` on a path that was never registered resolves with status 404
and body `Not found`, and performs no storage operation at all. -/
theorem add_unregistered_not_found (store : Store) (path : String) (data : JSObj)
    (now : Rat) (env : StorageEnv) (h : aGet? store path = none) :
    add store path data now env = ⟨404, ["Not found"], []⟩ := by
  unfold add
  rw [h]

/-- Witness for C2 at a concrete unregistered path and empty store. -/
theorem add_unregistered_not_found_witness :
    add [] "v1/missing" [] 0 {} = ⟨404, ["Not found"], []⟩ :=
  add_unregistered_not_found [] "v1/missing" [] 0 {} rfl

/-- C8, evaluated at the failing input: with the path registered, the record
valid and the storage engine REJECTING the `insertOne` promise, `add` still
resolves 200 with an empty body, because the first `then` callback of
source lines 82-85 does not return the `insertOne` promise into the chain,
so its rejection never reaches the `catch` of lines 89-92.  The claim says
such a failure must yield 500 `Internal server error`; the code reports
success for the failed write (the insert operation was issued, as the third
conjunct records). -/
theorem add_insert_failure_still_succeeds :
    (add store1 "v1/logs" [("type", JSVal.vStr "info")] 55 ⟨true, .rejects⟩).code = 200 ∧
    (add store1 "v1/logs" [("type", JSVal.vStr "info")] 55 ⟨true, .rejects⟩).content = [""] ∧
    (add store1 "v1/logs" [("type", JSVal.vStr "info")] 55 ⟨true, .rejects⟩).ops.length = 1 :=
  ⟨rfl, rfl, rfl⟩

/-- C9 counterexample: a successful `add` of a valid `v1/logs` record
persists an item whose fields are `type`, `__timestamp` AND `__data` — the
stored payload field `__data` (source line 79) is a field beyond the
declared index fields plus the timestamp, contradicting the claim that no
other field is persisted. -/
theorem add_record_extra_payload_field_cx :
    (add store1 "v1/logs" [("type", JSVal.vStr "info")] 1234 {}).ops.map opItemKeys =
      [["type", "__timestamp", "__data"]] ∧
    "__data" ∉ (["type", "__timestamp"] : List String) :=
  ⟨rfl, by decide⟩

/-! ### The field set of a persisted record -/

theorem foldl_aSet_keys {α : Type} (f : String → α) (ks : List String) :
    ∀ (acc : List (String × α)), ks.Nodup → (∀ k ∈ ks, aHas acc k = false) →
      (ks.foldl (fun a k => aSet a k (f k)) acc).map Prod.fst = acc.map Prod.fst ++ ks := by
  induction ks with
  | nil => intro acc _ _; simp
  | cons k t ih =>
    intro acc hnd hacc
    simp only [List.foldl_cons]
    have hk : aHas acc k = false := hacc k (List.mem_cons_self k t)
    have hset : aSet acc k (f k) = acc ++ [(k, f k)] := by
      unfold aSet
      rw [if_neg (by simp [hk])]
    have hkt : k ∉ t := (List.nodup_cons.mp hnd).1
    have hacc2 : ∀ k2 ∈ t, aHas (aSet acc k (f k)) k2 = false := by
      intro k2 hk2
      have h1 : aHas acc k2 = false := hacc k2 (List.mem_cons_of_mem _ hk2)
      have h2 : (k == k2) = false := by
        have hne : k ≠ k2 := fun he => hkt (he ▸ hk2)
        simpa using hne
      rw [hset]
      simp [aHas, List.any_append, List.any_cons, h2]
      simpa [aHas] using h1
    rw [ih (aSet acc k (f k)) (List.nodup_cons.mp hnd).2 hacc2, hset]
    simp

theorem normalizedItem_keys (h : Handler) (data : JSObj) (hnd : h.keys.Nodup) :
    (normalizedItem h data).map Prod.fst = h.keys := by
  unfold normalizedItem
  have hstep := foldl_aSet_keys (fun k => okValue (getRule h.indexes k) k data) h.keys []
    hnd (by intro k _; rfl)
  simpa using hstep

theorem buildItem_ok_normalized (h : Handler) (data : JSObj) (item : JSObj)
    (hb : buildItem h data = .ok item) : item = normalizedItem h data := by
  unfold buildItem at hb
  rw [buildItemGo_spec h.indexes data h.keys []] at hb
  cases hfe : h.keys.findSome? (fun k => fieldError (getRule h.indexes k) k data) with
  | some e => rw [hfe] at hb; cases hb
  | none =>
    rw [hfe] at hb
    injection hb with hb
    rw [normalizedItem]
    exact hb.symm

/-- C9, amended: a successful `add` persists a record carrying exactly the
declared index fields in registration order (each bound to its normalized
value), PLUS the reserved `__timestamp` field, PLUS the reserved `__data`
field holding the (possibly transformed) input payload — and no other
field. -/
theorem add_record_fields_with_payload :
    ∀ (store : Store) (path : String) (data : JSObj) (now : Rat) (env : StorageEnv)
      (h : Handler) (item : JSObj),
      aGet? store path = some h →
      buildItem h (applyTransform h data) = Except.ok item →
      env.collectionOk = true →
      h.keys.Nodup →
      "__timestamp" ∉ h.keys →
      "__data" ∉ h.keys →
      (add store path data now env).ops =
        [.insertOne path
          (aSet (aSet item "__timestamp" (.vNum now)) "__data"
            (.vObj (applyTransform h data)))] ∧
      item = normalizedItem h (applyTransform h data) ∧
      (aSet (aSet item "__timestamp" (.vNum now)) "__data"
          (.vObj (applyTransform h data))).map Prod.fst =
        h.keys ++ ["__timestamp", "__data"] := by
  intro store path data now env h item hs hb hok hnd hts hdd
  have hitem : item = normalizedItem h (applyTransform h data) :=
    buildItem_ok_normalized _ _ _ hb
  have hkeys : item.map Prod.fst = h.keys := by
    rw [hitem]
    exact normalizedItem_keys h _ hnd
  have h1 : aHas item "__timestamp" = false :=
    (aHas_eq_false_iff _ _).mpr (by rw [hkeys]; exact hts)
  have hkeys1 : (aSet item "__timestamp" (JSVal.vNum now)).map Prod.fst =
      h.keys ++ ["__timestamp"] := by
    rw [aSet_map_fst_of_not_has _ _ _ h1, hkeys]
  have h2 : aHas (aSet item "__timestamp" (JSVal.vNum now)) "__data" = false := by
    apply (aHas_eq_false_iff _ _).mpr
    rw [hkeys1]
    intro hmem
    rcases List.mem_append.mp hmem with hm | hm
    · exact hdd hm
    · revert hm; decide
  have hkeys2 : (aSet (aSet item "__timestamp" (.vNum now)) "__data"
      (.vObj (applyTransform h data))).map Prod.fst = h.keys ++ ["__timestamp", "__data"] := by
    rw [aSet_map_fst_of_not_has _ _ _ h2, hkeys1]
    simp
  refine ⟨?_, hitem, hkeys2⟩
  rcases env with ⟨cok, ins⟩
  simp only at hok
  cases hok
  cases ins <;> simp [add, hs, hb]

/-- Witness for the amended C9 at the concrete `v1/logs` registration. -/
theorem add_record_fields_with_payload_witness :
    (add store1 "v1/logs" [("type", JSVal.vStr "info")] 7 {}).ops =
      [.insertOne "v1/logs"
        (aSet (aSet [("type", JSVal.vStr "info")] "__timestamp" (.vNum 7)) "__data"
          (.vObj (applyTransform logsHandler [("type", JSVal.vStr "info")])))] ∧
    [("type", JSVal.vStr "info")] =
      normalizedItem logsHandler (applyTransform logsHandler [("type", JSVal.vStr "info")]) ∧
    (aSet (aSet [("type", JSVal.vStr "info")] "__timestamp" (.vNum 7)) "__data"
        (.vObj (applyTransform logsHandler [("type", JSVal.vStr "info")]))).map Prod.fst =
      logsHandler.keys ++ ["__timestamp", "__data"] :=
  add_record_fields_with_payload store1 "v1/logs" [("type", JSVal.vStr "info")] 7 {}
    logsHandler [("type", JSVal.vStr "info")] rfl rfl rfl (by decide) (by decide) (by decide)

/-! ### Claim theorems: the query window -/

theorem queryCore_position (h : Handler) (m : List JSObj) (opts : QueryOptions)
    (cfg : Config) : (queryCore h m opts cfg).position = some (effStart m opts cfg) := by
  simp only [queryCore]
  split <;> rfl

/-- C3: on a registered path, an effective position below 1 or above the
matching count yields an empty but successful result — status 200, content
type `application/json`, no emitted values, `recordsCount` still the full
matching count; and with zero matching records and no `position` option the
reported position is `0 - defaultLimit`, which is below 1. -/
theorem query_out_of_bounds_empty_success :
    (∀ (h : Handler) (m : List JSObj) (opts : QueryOptions) (cfg : Config) (p : Int),
        (queryCore h m opts cfg).position = some p →
        p < 1 ∨ (m.length : Int) < p →
        queryCore h m opts cfg =
          ⟨200, "application/json", [], cfg.defaultLimit, some p, (m.length : Int)⟩) ∧
    (∀ (cfg : Config) (h : Handler) (st et : Option TimeInput) (ts tsp : Option String),
        0 < cfg.defaultLimit →
        (queryCore h [] ⟨.absent, st, et, ts, tsp⟩ cfg).position =
          some (0 - cfg.defaultLimit) ∧
        0 - cfg.defaultLimit < 1) := by
  constructor
  · intro h m opts cfg p hpos hoob
    rw [queryCore_position] at hpos
    injection hpos with he
    subst he
    unfold queryCore
    rw [if_pos hoob]
  · intro cfg h st et ts tsp hdl
    refine ⟨?_, by omega⟩
    rw [queryCore_position]
    rfl

/-- Witness for C3: an empty collection under the default window, and a
position option far beyond a one-record collection. -/
theorem query_out_of_bounds_empty_success_witness :
    queryCore logsHandler [] {} ⟨10, 100⟩ =
      ⟨200, "application/json", [], 10, some (-10), 0⟩ ∧
    ((queryCore logsHandler [] {} ⟨10, 100⟩).position = some (0 - (10 : Int)) ∧
      0 - (10 : Int) < 1) :=
  ⟨query_out_of_bounds_empty_success.1 logsHandler [] {} ⟨10, 100⟩ (-10) rfl
      (Or.inl (by norm_num)),
    query_out_of_bounds_empty_success.2 ⟨10, 100⟩ logsHandler none none none none
      (by norm_num)⟩

/-- C7, evaluated at the failing input: the source doc block documents the
option `timestampProperty` (line 201), but the code reads `options.timestamp`
(line 257).  A query passing `timestampProperty` therefore emits the bare
payload with no timestamp annotation, while the undocumented key `timestamp`
does trigger the annotation. -/
theorem query_timestamp_option_key_mismatch :
    (queryCore logsHandler [logItem1] { position := .num 1, timestampProperty := some "ts" }
        ⟨10, 100⟩).content = [JSVal.vObj logPayload1] ∧
    (queryCore logsHandler [logItem1] { position := .num 1, timestamp := some "ts" }
        ⟨10, 100⟩).content = [JSVal.vObj (logPayload1 ++ [("ts", JSVal.vNum 111)])] :=
  ⟨rfl, rfl⟩

/-! ### Claim theorems: the compiled predicate -/

/-- Does a predicate entry avoid carrying an upper (`lte`) bound? -/
def entryNoLte : QVal → Bool
  | .range _ (some _) => false
  | _ => true

/-- No entry of the predicate carries an upper (`lte`) bound. -/
def predicateNoLte (p : Predicate) : Bool :=
  p.all (fun kv => entryNoLte kv.2)

theorem predicateNoLte_aSet (p : Predicate) (k : String) (v : QVal)
    (hp : predicateNoLte p = true) (hv : entryNoLte v = true) :
    predicateNoLte (aSet p k v) = true := by
  unfold aSet
  split
  · unfold predicateNoLte at *
    rw [List.all_eq_true] at *
    intro x hx
    rw [List.mem_map] at hx
    obtain ⟨y, hy, rfl⟩ := hx
    by_cases hk : y.1 == k
    · rw [if_pos hk]
      exact hv
    · rw [if_neg hk]
      exact hp y hy
  · unfold predicateNoLte at *
    rw [List.all_append]
    simp [hp, hv]

theorem predicateNoLte_compileFilter (h : Handler) (filter : List (String × String)) :
    predicateNoLte (compileFilter h filter) = true := by
  suffices hgen : ∀ (acc : Predicate), predicateNoLte acc = true →
      predicateNoLte (filter.foldl (compileFilterStep h) acc) = true by
    exact hgen [] rfl
  induction filter with
  | nil => intro acc hacc; exact hacc
  | cons kv t ih =>
    intro acc hacc
    simp only [List.foldl_cons]
    apply ih
    unfold compileFilterStep
    cases aGet? h.indexes kv.1 with
    | none => exact hacc
    | some rule =>
      dsimp only
      split_ifs
      · exact predicateNoLte_aSet _ _ _ hacc rfl
      · cases jsNumber? kv.2 with
        | some q => exact predicateNoLte_aSet _ _ _ hacc rfl
        | none => exact hacc
      · exact predicateNoLte_aSet _ _ _ hacc rfl

/-- C5: `startTime` and `endTime` are parsed into the same variable
(source lines 487-488 both assign `startTime`; the `endTime` variable of
line 457 is never assigned), so when both options are supplied the compiled
predicate carries a single lower-bound (`gte`) timestamp constraint equal
to the parsed `endTime`, and no input ever produces an upper-bound (`lte`)
constraint. -/
theorem buildQuery_single_gte_no_lte :
    (∀ (h : Handler) (filter : List (String × String)) (options : QueryOptions),
        predicateNoLte (buildQuery h filter options) = true) ∧
    (∀ (h : Handler) (filter : List (String × String)) (pos : PosOpt)
        (s e : TimeInput) (ts tsp : Option String),
        aGet? (buildQuery h filter ⟨pos, some s, some e, ts, tsp⟩) "__timestamp" =
          some (QVal.range (some (parseTime e)) none)) := by
  constructor
  · intro h filter options
    unfold buildQuery
    cases hst : options.startTime <;> cases het : options.endTime <;>
      simp only [hst, het]
    · exact predicateNoLte_compileFilter h filter
    · exact predicateNoLte_aSet _ _ _ (predicateNoLte_compileFilter h filter) rfl
    · exact predicateNoLte_aSet _ _ _ (predicateNoLte_compileFilter h filter) rfl
    · exact predicateNoLte_aSet _ _ _ (predicateNoLte_compileFilter h filter) rfl
  · intro h filter pos s e ts tsp
    simp only [buildQuery]
    exact aGet?_aSet _ _ _

/-- C6 counterexample: with an unparsable `startTime` (and no `endTime`),
the compiled predicate is NOT free of a timestamp constraint — `parseTime`
returns `null`, which still counts as a defined bound, so the predicate
carries `__timestamp: (gte: null)`.  The claim that the unparsable bound is
dropped silently is therefore false on the code. -/
theorem buildQuery_unparsable_dropped_cx :
    buildQuery logsHandler [] { startTime := some TimeInput.unparsable } =
      [("__timestamp", QVal.range (some none) none)] := rfl

/-- C6, amended: a bound that is neither numeric nor a parseable date is
parsed to `null` rather than dropped; whenever it is the last-supplied
bound (an unparsable `startTime` with no `endTime`, or an unparsable
`endTime` with anything before it), the compiled predicate carries the
lower-bound timestamp constraint with value `null`.  (An unparsable
`startTime` is only ever masked by a supplied `endTime` overwriting the
shared variable.) -/
theorem buildQuery_unparsable_null_gte :
    (∀ (h : Handler) (filter : List (String × String)) (pos : PosOpt)
        (ts tsp : Option String),
        aGet? (buildQuery h filter ⟨pos, some .unparsable, none, ts, tsp⟩) "__timestamp" =
          some (QVal.range (some none) none)) ∧
    (∀ (h : Handler) (filter : List (String × String)) (pos : PosOpt)
        (st : Option TimeInput) (ts tsp : Option String),
        aGet? (buildQuery h filter ⟨pos, st, some .unparsable, ts, tsp⟩) "__timestamp" =
          some (QVal.range (some none) none)) := by
  constructor
  · intro h filter pos ts tsp
    simp only [buildQuery, parseTime]
    exact aGet?_aSet _ _ _
  · intro h filter pos st ts tsp
    simp only [buildQuery, parseTime]
    exact aGet?_aSet _ _ _

/-! ### Claim theorems: the link envelope -/

theorem ne_len {m t : String} (hmt : m.length ≠ t.length) : m ≠ t :=
  fun e => hmt (congrArg String.length e)

theorem lenNextM : ("\"next\":\x7b" : String).length = 8 := rfl

theorem lenPrevM : ("\"prev\":\x7b" : String).length = 8 := rfl

theorem lenHrefH : ("\"href\":\"" : String).length = 8 := rfl

theorem lenQuoteComma : ("\"," : String).length = 2 := rfl

theorem lenPageSizeH : ("\"page_size\":" : String).length = 12 := rfl

theorem lenPositionH : ("\"position\":" : String).length = 11 := rfl

theorem lenTotalH : ("\"total_records\":" : String).length = 16 := rfl

theorem lenComma : ("," : String).length = 1 := rfl

theorem nextM_notin_latest (u : String) : "\"next\":\x7b" ∉ latestChunksPart u := by
  intro hm
  simp only [latestChunksPart, List.mem_cons, List.not_mem_nil, or_false] at hm
  rcases hm with h | h | h | h | h | h | h
  · exact absurd h (by decide)
  · exact absurd h (by decide)
  · exact absurd h (by decide)
  · exact absurd h (ne_len (by
      rw [String.length_append, String.length_append, lenNextM, lenHrefH, lenQuoteComma]
      omega))
  · exact absurd h (by decide)
  · exact absurd h (by decide)
  · exact absurd h (by decide)

theorem nextM_notin_prev (url : String) (q : List (String × String)) (p l : Int) :
    "\"next\":\x7b" ∉ prevLinkChunks url q p l := by
  intro hm
  simp only [prevLinkChunks, List.mem_cons, List.not_mem_nil, or_false] at hm
  rcases hm with h | h | h | h | h
  · exact absurd h (by decide)
  · exact absurd h (ne_len (by
      rw [String.length_append, String.length_append, String.length_append,
        lenNextM, lenHrefH, lenQuoteComma]
      omega))
  · exact absurd h (by decide)
  · exact absurd h (by decide)
  · exact absurd h (by decide)

theorem nextM_notin_selfmeta (url : String) (q : List (String × String)) (p l c : Int) :
    "\"next\":\x7b" ∉ selfAndMetaChunks url q p l c := by
  intro hm
  simp only [selfAndMetaChunks, List.mem_cons, List.not_mem_nil, or_false] at hm
  rcases hm with h | h | h | h | h | h | h | h | h | h | h | h
  · exact absurd h (by decide)
  · exact absurd h (ne_len (by
      rw [String.length_append, String.length_append, String.length_append,
        lenNextM, lenHrefH, lenQuoteComma]
      omega))
  · exact absurd h (by decide)
  · exact absurd h (by decide)
  · exact absurd h (by decide)
  · exact absurd h (by decide)
  · exact absurd h (by decide)
  · exact absurd h (ne_len (by
      rw [String.length_append, String.length_append, lenNextM, lenPageSizeH, lenComma]
      omega))
  · exact absurd h (ne_len (by
      rw [String.length_append, String.length_append, lenNextM, lenPositionH, lenComma]
      omega))
  · exact absurd h (ne_len (by
      rw [String.length_append, lenNextM, lenTotalH]
      omega))
  · exact absurd h (by decide)
  · exact absurd h (by decide)

theorem prevM_notin_latest (u : String) : "\"prev\":\x7b" ∉ latestChunksPart u := by
  intro hm
  simp only [latestChunksPart, List.mem_cons, List.not_mem_nil, or_false] at hm
  rcases hm with h | h | h | h | h | h | h
  · exact absurd h (by decide)
  · exact absurd h (by decide)
  · exact absurd h (by decide)
  · exact absurd h (ne_len (by
      rw [String.length_append, String.length_append, lenPrevM, lenHrefH, lenQuoteComma]
      omega))
  · exact absurd h (by decide)
  · exact absurd h (by decide)
  · exact absurd h (by decide)

theorem prevM_notin_next (url : String) (q : List (String × String)) (pos : Int) :
    "\"prev\":\x7b" ∉ nextLinkChunks url q pos := by
  intro hm
  simp only [nextLinkChunks, List.mem_cons, List.not_mem_nil, or_false] at hm
  rcases hm with h | h | h | h | h
  · exact absurd h (by decide)
  · exact absurd h (ne_len (by
      rw [String.length_append, String.length_append, String.length_append,
        lenPrevM, lenHrefH, lenQuoteComma]
      omega))
  · exact absurd h (by decide)
  · exact absurd h (by decide)
  · exact absurd h (by decide)

theorem prevM_notin_selfmeta (url : String) (q : List (String × String)) (p l c : Int) :
    "\"prev\":\x7b" ∉ selfAndMetaChunks url q p l c := by
  intro hm
  simp only [selfAndMetaChunks, List.mem_cons, List.not_mem_nil, or_false] at hm
  rcases hm with h | h | h | h | h | h | h | h | h | h | h | h
  · exact absurd h (by decide)
  · exact absurd h (ne_len (by
      rw [String.length_append, String.length_append, String.length_append,
        lenPrevM, lenHrefH, lenQuoteComma]
      omega))
  · exact absurd h (by decide)
  · exact absurd h (by decide)
  · exact absurd h (by decide)
  · exact absurd h (by decide)
  · exact absurd h (by decide)
  · exact absurd h (ne_len (by
      rw [String.length_append, String.length_append, lenPrevM, lenPageSizeH, lenComma]
      omega))
  · exact absurd h (ne_len (by
      rw [String.length_append, String.length_append, lenPrevM, lenPositionH, lenComma]
      omega))
  · exact absurd h (ne_len (by
      rw [String.length_append, lenPrevM, lenTotalH]
      omega))
  · exact absurd h (by decide)
  · exact absurd h (by decide)

/-- C4: in the streamed link envelope, the `next` link block appears exactly
when `position + limit < recordsCount` and its href overrides `~position`
with `position + limit`; the `prev` link block appears exactly when
`position > 1` and its href override carries `position - limit` clamped to
1 (with `~limit` adjusted to `position - 1` when the subtraction would fall
below 1), so the position it carries is always at least 1; the `self` and
`latest` link blocks are always pushed. -/
theorem query_links_envelope :
    (∀ (u : String) (q : List (String × String)) (p l c : Int),
        ("\"next\":\x7b" ∈ pushQueryStreamStart u q p l c ↔ p + l < c)) ∧
    (∀ (u : String) (q : List (String × String)) (p l c : Int),
        ("\"prev\":\x7b" ∈ pushQueryStreamStart u q p l c ↔ 1 < p)) ∧
    (∀ (u : String) (q : List (String × String)) (p l c : Int),
        "\"self\":\x7b" ∈ pushQueryStreamStart u q p l c ∧
        "\"latest\":\x7b" ∈ pushQueryStreamStart u q p l c) ∧
    (∀ (u : String) (q : List (String × String)) (p l c : Int), p + l < c →
        (nextLinkChunks (u ++ "/") q (p + l)).IsInfix (pushQueryStreamStart u q p l c)) ∧
    (∀ (u : String) (q : List (String × String)) (p l c : Int), 1 < p →
        (prevLinkChunks (u ++ "/") q p l).IsInfix (pushQueryStreamStart u q p l c)) ∧
    (∀ (p l : Int),
        aGet? (prevOverride p l) "~position" = some (toString (prevPosNum p l)) ∧
        1 ≤ prevPosNum p l) := by
  refine ⟨?_, ?_, ?_, ?_, ?_, ?_⟩
  · intro u q p l c
    simp only [pushQueryStreamStart, List.mem_append]
    constructor
    · rintro (((h | h) | h) | h)
      · exact absurd h (nextM_notin_latest u)
      · by_cases hc : c > p + l
        · exact hc
        · rw [if_neg hc] at h
          exact absurd h (List.not_mem_nil _)
      · by_cases hp : p > 1
        · rw [if_pos hp] at h
          exact absurd h (nextM_notin_prev _ q p l)
        · rw [if_neg hp] at h
          exact absurd h (List.not_mem_nil _)
      · exact absurd h (nextM_notin_selfmeta _ q p l c)
    · intro hc
      refine Or.inl (Or.inl (Or.inr ?_))
      rw [if_pos hc]
      exact List.mem_cons_self _ _
  · intro u q p l c
    simp only [pushQueryStreamStart, List.mem_append]
    constructor
    · rintro (((h | h) | h) | h)
      · exact absurd h (prevM_notin_latest u)
      · by_cases hc : c > p + l
        · rw [if_pos hc] at h
          exact absurd h (prevM_notin_next _ q _)
        · rw [if_neg hc] at h
          exact absurd h (List.not_mem_nil _)
      · by_cases hp : p > 1
        · exact hp
        · rw [if_neg hp] at h
          exact absurd h (List.not_mem_nil _)
      · exact absurd h (prevM_notin_selfmeta _ q p l c)
    · intro hp
      refine Or.inl (Or.inr ?_)
      rw [if_pos hp]
      exact List.mem_cons_self _ _
  · intro u q p l c
    constructor
    · simp only [pushQueryStreamStart, List.mem_append]
      exact Or.inr (List.mem_cons_self _ _)
    · simp only [pushQueryStreamStart, List.mem_append]
      refine Or.inl (Or.inl (Or.inl ?_))
      simp [latestChunksPart]
  · intro u q p l c hc
    refine ⟨latestChunksPart u,
      (if p > 1 then prevLinkChunks (u ++ "/") q p l else []) ++
        selfAndMetaChunks (u ++ "/") q p l c, ?_⟩
    simp only [pushQueryStreamStart]
    rw [if_pos hc]
    simp [List.append_assoc]
  · intro u q p l c hp
    refine ⟨latestChunksPart u ++
      (if c > p + l then nextLinkChunks (u ++ "/") q (p + l) else []),
      selfAndMetaChunks (u ++ "/") q p l c, ?_⟩
    simp only [pushQueryStreamStart]
    rw [if_pos hp]
  · intro p l
    constructor
    · unfold prevOverride prevPosNum
      split_ifs with hcl
      · simp [aGet?]
      · simp [aGet?]
    · unfold prevPosNum
      split_ifs with hcl
      · omega
      · omega

/-- Witness for C4 at a concrete window: position 15, limit 10, 26 records
(both `next` and `prev` present). -/
theorem query_links_envelope_witness :
    ("\"next\":\x7b" ∈ pushQueryStreamStart "http://x/q" [] 15 10 26) ∧
    ("\"prev\":\x7b" ∈ pushQueryStreamStart "http://x/q" [] 15 10 26) ∧
    (nextLinkChunks ("http://x/q" ++ "/") [] (15 + 10)).IsInfix
      (pushQueryStreamStart "http://x/q" [] 15 10 26) ∧
    (prevLinkChunks ("http://x/q" ++ "/") [] 15 10).IsInfix
      (pushQueryStreamStart "http://x/q" [] 15 10 26) :=
  ⟨(query_links_envelope.1 "http://x/q" [] 15 10 26).mpr (by norm_num),
    (query_links_envelope.2.1 "http://x/q" [] 15 10 26).mpr (by norm_num),
    query_links_envelope.2.2.2.1 "http://x/q" [] 15 10 26 (by norm_num),
    query_links_envelope.2.2.2.2.1 "http://x/q" [] 15 10 26 (by norm_num)⟩

end EventSource
